import Mathlib

/-!
Verification of the balanced-ternary CPU emulator.

The definitions below are a shallow embedding of the Rust sources:
`src/arch/trit.rs`, `src/arch/circuits.rs`, `src/arch/instructions.rs`,
`src/core/alu.rs`, `src/core/registers.rs`, `src/core/address_space.rs`
and `src/cpu.rs`.  Machine integers (`i128`, `i32`, `usize`) are modelled
as `Int`/`Nat` with the exact wrap-arounds written out where a Rust cast
occurs.  The two sparse `HashMap` stores are modelled as total functions
with the zero word as default, which is observationally identical to
`get(..).copied().unwrap_or_default()` together with `insert`.
-/

/-- A balanced-ternary digit (`Trit` in `src/arch/trit.rs`). -/
inductive Trit : Type
  | Negative
  | Zero
  | Positive
deriving DecidableEq, Fintype

instance : Inhabited Trit := ⟨Trit.Zero⟩

/-- `Trit::to_i8` (the i8 values are widened to `Int`). -/
def Trit.to_i8 : Trit → Int
  | .Negative => -1
  | .Zero => 0
  | .Positive => 1

/-- `Trit::from_i8`: any value other than -1, 0, 1 falls back to `Zero`. -/
def Trit.from_i8 (val : Int) : Trit :=
  if val = -1 then .Negative
  else if val = 0 then .Zero
  else if val = 1 then .Positive
  else .Zero

/-- `TritField<N>` from `src/arch/trit.rs`: a fixed array of `N` trits,
position 0 least significant. -/
def TritField (N : Nat) : Type := { l : List Trit // l.length = N }

instance (N : Nat) : DecidableEq (TritField N) :=
  inferInstanceAs (DecidableEq { l : List Trit // l.length = N })

instance (N : Nat) : Inhabited (TritField N) :=
  ⟨⟨List.replicate N Trit.Zero, List.length_replicate N Trit.Zero⟩⟩

/-- The machine word: `pub type Tryte = TritField<27>`. -/
abbrev Tryte : Type := TritField 27

/-- `pub type RegAddr = TritField<3>` from `src/core/registers.rs`. -/
abbrev RegAddr : Type := TritField 3

/-- `pub type Address = TritField<27>` from `src/core/address_space.rs`. -/
abbrev Address : Type := TritField 27

/-- The value/power accumulation loop shared by `TritField::to_i128` and
`extract_value`: `value += trit * power; power *= 3`. -/
def tritAccum (l : List Trit) : Int :=
  (l.foldl (fun acc trit => (acc.1 + trit.to_i8 * acc.2, acc.2 * 3)) ((0 : Int), (1 : Int))).1

/-- `TritField::to_i128`. -/
def TritField.to_i128 {N : Nat} (f : TritField N) : Int :=
  tritAccum f.val

/-- Horner form of the balanced-ternary value of a digit list; proved equal
to the `tritAccum` loop below. -/
def tritsVal : List Trit → Int
  | [] => 0
  | t :: ts => t.to_i8 + 3 * tritsVal ts

theorem tritAccum_go (l : List Trit) : ∀ (v p : Int),
    (l.foldl (fun acc trit => (acc.1 + trit.to_i8 * acc.2, acc.2 * 3)) (v, p)).1
      = v + p * tritsVal l := by
  induction l with
  | nil => intro v p; simp [tritsVal]
  | cons t ts ih =>
    intro v p
    simp only [List.foldl_cons, tritsVal, ih]
    ring

theorem tritAccum_eq_tritsVal (l : List Trit) : tritAccum l = tritsVal l := by
  rw [tritAccum, tritAccum_go]
  ring

theorem to_i128_eq_tritsVal {N : Nat} (f : TritField N) :
    f.to_i128 = tritsVal f.val := tritAccum_eq_tritsVal f.val

/-- One iteration of the `from_i128` reduction (`src/arch/trit.rs`,
lines 67-76): truncated division and remainder by 3, then the carry
adjustment that pushes the remainder into {-1,0,1}.  The first component
is the adjusted remainder `rem`, the second the adjusted quotient `n`. -/
def balanced_step (n : Int) : Int × Int :=
  if 1 < Int.tmod n 3 then (Int.tmod n 3 - 3, Int.tdiv n 3 + 1)
  else if Int.tmod n 3 < -1 then (Int.tmod n 3 + 3, Int.tdiv n 3 - 1)
  else (Int.tmod n 3, Int.tdiv n 3)

/-- The digit match at the end of each `from_i128` iteration; the wildcard
arm is the source `unreachable!()` panic, modelled as `none`. -/
def tritOfDigit (rem : Int) : Option Trit :=
  if rem = -1 then some Trit.Negative
  else if rem = 0 then some Trit.Zero
  else if rem = 1 then some Trit.Positive
  else none

/-- The loop of `TritField::from_i128`:  `none` exactly when the
`unreachable!()` digit arm would panic; when the running value reaches 0
the loop breaks and the remaining positions keep their default `Zero`. -/
def from_i128_loop : Nat → Int → Option (List Trit)
  | 0, _ => some []
  | fuel + 1, n =>
    if n = 0 then some (List.replicate (fuel + 1) Trit.Zero)
    else
      match tritOfDigit (balanced_step n).1 with
      | none => none
      | some t => (from_i128_loop fuel (balanced_step n).2).map (fun l => t :: l)

theorem balanced_divmod (n : Int) :
    3 * Int.tdiv n 3 + Int.tmod n 3 = n ∧ -2 ≤ Int.tmod n 3 ∧ Int.tmod n 3 ≤ 2 := by
  refine ⟨Int.tdiv_add_tmod n 3, ?_, ?_⟩
  · cases n with
    | ofNat m =>
      have h : Int.tmod (Int.ofNat m) 3 = Int.ofNat (m % 3) := rfl
      rw [h, Int.ofNat_eq_natCast]
      omega
    | negSucc m =>
      have h : Int.tmod (Int.negSucc m) 3 = -Int.ofNat ((m + 1) % 3) := rfl
      have hlt : (m + 1) % 3 < 3 := Nat.mod_lt _ (by omega)
      rw [h, Int.ofNat_eq_natCast]
      omega
  · cases n with
    | ofNat m =>
      have h : Int.tmod (Int.ofNat m) 3 = Int.ofNat (m % 3) := rfl
      have hlt : m % 3 < 3 := Nat.mod_lt _ (by omega)
      rw [h, Int.ofNat_eq_natCast]
      omega
    | negSucc m =>
      have h : Int.tmod (Int.negSucc m) 3 = -Int.ofNat ((m + 1) % 3) := rfl
      rw [h, Int.ofNat_eq_natCast]
      omega

theorem balanced_step_spec (n : Int) :
    3 * (balanced_step n).2 + (balanced_step n).1 = n ∧
    -1 ≤ (balanced_step n).1 ∧ (balanced_step n).1 ≤ 1 := by
  obtain ⟨he, hl, hu⟩ := balanced_divmod n
  unfold balanced_step
  split_ifs with h1 h2 <;> constructor <;> simp <;> omega

theorem balanced_step_unique (t d : Int) (h1 : -1 ≤ d) (h2 : d ≤ 1) :
    balanced_step (3 * t + d) = (d, t) := by
  obtain ⟨he, hbl, hbu⟩ := balanced_step_spec (3 * t + d)
  have hd : (balanced_step (3 * t + d)).1 = d := by omega
  have ht : (balanced_step (3 * t + d)).2 = t := by omega
  calc balanced_step (3 * t + d)
      = ((balanced_step (3 * t + d)).1, (balanced_step (3 * t + d)).2) := rfl
    _ = (d, t) := by rw [hd, ht]

theorem tritOfDigit_of_bounds {d : Int} (h1 : -1 ≤ d) (h2 : d ≤ 1) :
    ∃ t : Trit, tritOfDigit d = some t ∧ t.to_i8 = d := by
  have hd : d = -1 ∨ d = 0 ∨ d = 1 := by omega
  rcases hd with h | h | h <;> subst h
  · exact ⟨Trit.Negative, rfl, rfl⟩
  · exact ⟨Trit.Zero, rfl, rfl⟩
  · exact ⟨Trit.Positive, rfl, rfl⟩

theorem tritOfDigit_to_i8 (t : Trit) : tritOfDigit t.to_i8 = some t := by
  cases t <;> rfl

theorem from_i128_loop_isSome (fuel : Nat) : ∀ n : Int,
    (from_i128_loop fuel n).isSome = true := by
  induction fuel with
  | zero => intro n; rfl
  | succ k ih =>
    intro n
    by_cases hn : n = 0
    · simp [from_i128_loop, hn]
    · obtain ⟨he, hbl, hbu⟩ := balanced_step_spec n
      obtain ⟨t, ht, _⟩ := tritOfDigit_of_bounds hbl hbu
      simp [from_i128_loop, hn, ht, ih]

theorem from_i128_loop_length (fuel : Nat) : ∀ (n : Int) (l : List Trit),
    from_i128_loop fuel n = some l → l.length = fuel := by
  induction fuel with
  | zero =>
    intro n l h
    simp only [from_i128_loop, Option.some.injEq] at h
    simp [← h]
  | succ k ih =>
    intro n l h
    by_cases hn : n = 0
    · simp only [from_i128_loop, hn, if_pos, Option.some.injEq] at h
      simp [← h]
    · simp only [from_i128_loop, hn, if_neg, ite_false] at h
      cases htd : tritOfDigit (balanced_step n).1 with
      | none => rw [htd] at h; simp at h
      | some t =>
        rw [htd] at h
        cases hrec : from_i128_loop k (balanced_step n).2 with
        | none => rw [hrec] at h; simp at h
        | some l2 =>
          rw [hrec] at h
          simp only [Option.map_some', Option.map_some, Option.some.injEq] at h
          have := ih _ _ hrec
          simp [← h, this]

theorem tritsVal_replicate_zero (k : Nat) :
    tritsVal (List.replicate k Trit.Zero) = 0 := by
  induction k with
  | zero => rfl
  | succ m ih => simp [List.replicate, tritsVal, ih, Trit.to_i8]

theorem from_i128_loop_dvd (fuel : Nat) : ∀ (n : Int) (l : List Trit),
    from_i128_loop fuel n = some l → (3 : Int) ^ fuel ∣ tritsVal l - n := by
  induction fuel with
  | zero =>
    intro n l h
    simp only [pow_zero]
    exact one_dvd _
  | succ k ih =>
    intro n l h
    by_cases hn : n = 0
    · subst hn
      simp only [from_i128_loop, if_pos, Option.some.injEq] at h
      rw [← h, tritsVal_replicate_zero]
      simp
    · obtain ⟨he, hbl, hbu⟩ := balanced_step_spec n
      obtain ⟨t, ht, hti⟩ := tritOfDigit_of_bounds hbl hbu
      simp only [from_i128_loop, hn, if_neg, ite_false, ht] at h
      cases hrec : from_i128_loop k (balanced_step n).2 with
      | none => rw [hrec] at h; simp at h
      | some l2 =>
        rw [hrec] at h
        simp only [Option.map_some', Option.map_some, Option.some.injEq] at h
        obtain ⟨c, hc⟩ := ih _ _ hrec
        refine ⟨c, ?_⟩
        rw [← h]
        simp only [tritsVal, hti]
        have hgoal : tritsVal l2 - (balanced_step n).2 = 3 ^ k * c := hc
        have hpow : (3 : Int) ^ (k + 1) = 3 * 3 ^ k := by ring
        rw [hpow]
        nlinarith [hgoal, he]

theorem from_i128_loop_eq_getD (N : Nat) (n : Int) :
    from_i128_loop N n =
      some ((from_i128_loop N n).getD (List.replicate N Trit.Zero)) := by
  cases h : from_i128_loop N n with
  | none =>
    have := from_i128_loop_isSome N n
    rw [h] at this
    simp at this
  | some l => rfl

/-- `TritField::from_i128` (`src/arch/trit.rs`, lines 57-86).  By
`from_i128_loop_isSome` the `getD` default is never used. -/
def TritField.from_i128 (N : Nat) (value : Int) : TritField N :=
  ⟨(from_i128_loop N value).getD (List.replicate N Trit.Zero), by
    cases h : from_i128_loop N value with
    | none => simp
    | some l => simpa using from_i128_loop_length N value l h⟩

theorem tritsVal_bound (l : List Trit) :
    2 * |tritsVal l| + 1 ≤ 3 ^ l.length := by
  induction l with
  | nil => simp [tritsVal]
  | cons t ts ih =>
    have ht : |t.to_i8| ≤ 1 := by cases t <;> simp [Trit.to_i8]
    have h3 : |(3 : Int) * tritsVal ts| = 3 * |tritsVal ts| := by
      rw [abs_mul]
      norm_num
    have habs : |tritsVal (t :: ts)| ≤ 1 + 3 * |tritsVal ts| := by
      simp only [tritsVal]
      calc |t.to_i8 + 3 * tritsVal ts| ≤ |t.to_i8| + |3 * tritsVal ts| := abs_add _ _
        _ ≤ 1 + 3 * |tritsVal ts| := by rw [h3]; omega
    have hpow : (3 : Int) ^ (t :: ts).length = 3 * 3 ^ ts.length := by
      simp [pow_succ]
      ring
    rw [hpow]
    linarith

theorem tritsVal_eq_zero {l : List Trit} (h : tritsVal l = 0) :
    l = List.replicate l.length Trit.Zero := by
  induction l with
  | nil => rfl
  | cons t ts ih =>
    have ht : -1 ≤ t.to_i8 ∧ t.to_i8 ≤ 1 := by cases t <;> simp [Trit.to_i8]
    simp only [tritsVal] at h
    have hz : t.to_i8 = 0 ∧ tritsVal ts = 0 := by omega
    have htz : t = Trit.Zero := by
      cases t <;> simp [Trit.to_i8] at hz ⊢
    subst htz
    simp only [List.length_cons, List.replicate_succ, List.cons.injEq, true_and]
    exact ih hz.2

theorem tritsVal_inj : ∀ (a b : List Trit), a.length = b.length →
    tritsVal a = tritsVal b → a = b := by
  intro a
  induction a with
  | nil =>
    intro b hlen _
    cases b with
    | nil => rfl
    | cons _ _ => simp at hlen
  | cons x ta ih =>
    intro b hlen hval
    cases b with
    | nil => simp at hlen
    | cons y tb =>
      have hx : -1 ≤ x.to_i8 ∧ x.to_i8 ≤ 1 := by cases x <;> simp [Trit.to_i8]
      have hy : -1 ≤ y.to_i8 ∧ y.to_i8 ≤ 1 := by cases y <;> simp [Trit.to_i8]
      simp only [tritsVal] at hval
      have hheads : x.to_i8 = y.to_i8 ∧ tritsVal ta = tritsVal tb := by omega
      have hxy : x = y := by
        cases x <;> cases y <;> first
          | rfl
          | (exfalso; simp [Trit.to_i8] at hheads)
      subst hxy
      simp only [List.length_cons, Nat.add_right_cancel_iff] at hlen
      rw [ih tb hlen hheads.2]

theorem from_i128_loop_of_val : ∀ l : List Trit,
    from_i128_loop l.length (tritsVal l) = some l := by
  intro l
  induction l with
  | nil => rfl
  | cons t ts ih =>
    by_cases hz : tritsVal (t :: ts) = 0
    · have hrep := tritsVal_eq_zero hz
      rw [hz]
      simp only [List.length_cons, from_i128_loop, if_pos]
      rw [← List.length_cons t ts, ← hrep]
    · have hstep : balanced_step (tritsVal (t :: ts)) = (t.to_i8, tritsVal ts) := by
        have hval : tritsVal (t :: ts) = 3 * tritsVal ts + t.to_i8 := by
          simp only [tritsVal]
          ring
        rw [hval]
        apply balanced_step_unique
        · cases t <;> simp [Trit.to_i8]
        · cases t <;> simp [Trit.to_i8]
      simp only [List.length_cons, from_i128_loop, hz, if_neg, ite_false, hstep,
        tritOfDigit_to_i8, ih, Option.map_some', Option.map_some]

theorem from_i128_val_eq (N : Nat) (n : Int) :
    from_i128_loop N n = some (TritField.from_i128 N n).val :=
  from_i128_loop_eq_getD N n

theorem to_i128_from_i128_dvd (N : Nat) (n : Int) :
    (3 : Int) ^ N ∣ (TritField.from_i128 N n).to_i128 - n := by
  rw [to_i128_eq_tritsVal]
  exact from_i128_loop_dvd N n _ (from_i128_val_eq N n)

theorem to_i128_bound {N : Nat} (f : TritField N) :
    2 * |f.to_i128| + 1 ≤ 3 ^ N := by
  have h := tritsVal_bound f.val
  rw [f.property] at h
  rw [to_i128_eq_tritsVal]
  exact h

theorem from_i128_to_i128 {N : Nat} (f : TritField N) :
    TritField.from_i128 N f.to_i128 = f := by
  have h1 : from_i128_loop N f.to_i128 = some f.val := by
    have h := from_i128_loop_of_val f.val
    rw [f.property] at h
    rw [to_i128_eq_tritsVal]
    exact h
  have h2 := from_i128_val_eq N f.to_i128
  rw [h1] at h2
  exact Subtype.ext (Option.some.inj h2).symm

theorem to_i128_from_i128_exact (N : Nat) (x : Int)
    (h : 2 * |x| + 1 ≤ 3 ^ N) :
    (TritField.from_i128 N x).to_i128 = x := by
  obtain ⟨c, hc⟩ := to_i128_from_i128_dvd N x
  have hb := to_i128_bound (TritField.from_i128 N x)
  have hpos : (0 : Int) < 3 ^ N := by positivity
  set v := (TritField.from_i128 N x).to_i128 with hv
  have hcz : c = 0 := by
    by_contra hne
    have h1 : 1 ≤ |c| := Int.one_le_abs hne
    have h2 : |v - x| = 3 ^ N * |c| := by rw [hc, abs_mul, abs_of_pos hpos]
    have h3 : |v - x| ≤ |v| + |x| := abs_sub v x
    nlinarith [abs_nonneg c, abs_nonneg v, abs_nonneg x,
      mul_le_mul_of_nonneg_left h1 (le_of_lt hpos)]
  rw [hcz, mul_zero] at hc
  omega

/-- `ErisCircuit::full_trit_adder` (`src/arch/circuits.rs`): the 7-case
balanced-ternary full adder on the raw integer sum.  The wildcard arm is
the source `unreachable!()`; it cannot fire because |a+b+c| ≤ 3 for trit
inputs, so it is given the junk value (0, 0) here. -/
def full_trit_adder (input_a input_b carry_in : Trit) : Trit × Trit :=
  let sum_raw := input_a.to_i8 + input_b.to_i8 + carry_in.to_i8
  let sc : Int × Int :=
    if sum_raw = 3 then (0, 1)
    else if sum_raw = 2 then (-1, 1)
    else if sum_raw = 1 then (1, 0)
    else if sum_raw = 0 then (0, 0)
    else if sum_raw = -1 then (-1, 0)
    else if sum_raw = -2 then (1, -1)
    else if sum_raw = -3 then (0, -1)
    else (0, 0)
  (Trit.from_i8 sc.1, Trit.from_i8 sc.2)

/-- `AluOp` from `src/arch/instructions.rs`. -/
inductive AluOp : Type
  | Add
  | Sub
  | PassB
  | None
deriving DecidableEq

instance : Inhabited AluOp := ⟨AluOp.None⟩

/-- `ControlSignals` from `src/arch/instructions.rs`. -/
structure ControlSignals : Type where
  alu_op : AluOp
  alu_src : Bool
  reg_write : Bool
  mem_read : Bool
  mem_write : Bool
  mem_to_reg : Bool
  branch : Bool
  jump : Bool
deriving DecidableEq

/-- `ControlSignals::default()`: every flag off, ALU op `None`. -/
instance : Inhabited ControlSignals :=
  ⟨⟨AluOp.None, false, false, false, false, false, false, false⟩⟩

/-- `Instruction` from `src/arch/instructions.rs`.  Register indices are
`usize` in the source, hence `Nat`; immediates are `i32`, kept as `Int`
(the decoder below only ever produces in-range values via `as_i32`). -/
inductive Instruction : Type
  | Add (rd rs1 rs2 : Nat)
  | Sub (rd rs1 rs2 : Nat)
  | Addi (rd rs1 : Nat) (imm : Int)
  | Lw (rd rs1 : Nat) (imm : Int)
  | Sw (rs1 rs2 : Nat) (imm : Int)
  | Beq (rs1 rs2 : Nat) (imm : Int)
  | Jal (rd : Nat) (imm : Int)
  | Lui (rd : Nat) (imm : Int)
  | Nop
deriving DecidableEq

/-- `Instruction::decode`: derive the control-signal bundle and immediate. -/
def Instruction.decode : Instruction → ControlSignals × Int
  | .Add _ _ _ =>
    ({ (default : ControlSignals) with alu_op := AluOp.Add, reg_write := true, alu_src := false }, 0)
  | .Sub _ _ _ =>
    ({ (default : ControlSignals) with alu_op := AluOp.Sub, reg_write := true, alu_src := false }, 0)
  | .Addi _ _ imm =>
    ({ (default : ControlSignals) with alu_op := AluOp.Add, reg_write := true, alu_src := true }, imm)
  | .Lw _ _ imm =>
    ({ (default : ControlSignals) with
        alu_op := AluOp.Add, reg_write := true, alu_src := true, mem_read := true, mem_to_reg := true }, imm)
  | .Sw _ _ imm =>
    ({ (default : ControlSignals) with alu_op := AluOp.Add, mem_write := true, alu_src := true }, imm)
  | .Beq _ _ imm =>
    ({ (default : ControlSignals) with alu_op := AluOp.Sub, branch := true, alu_src := false }, imm)
  | .Jal _ imm =>
    ({ (default : ControlSignals) with jump := true, reg_write := true }, imm)
  | .Lui _ imm =>
    ({ (default : ControlSignals) with alu_op := AluOp.PassB, reg_write := true, alu_src := true }, imm)
  | .Nop => ((default : ControlSignals), 0)

def OP_ADD : Int := 1
def OP_SUB : Int := 2
def OP_ADDI : Int := 3
def OP_LW : Int := 4
def OP_SW : Int := 5
def OP_BEQ : Int := 6
def OP_JAL : Int := 7
def OP_LUI : Int := 8

/-- `extract_value` from `src/arch/instructions.rs`: the value/power loop
over trit positions `start..end` of the word (the `i >= 27` break is the
`drop`/`take` truncation). -/
def extract_value (tryte : Tryte) (start stop : Nat) : Int :=
  tritAccum ((tryte.val.drop start).take (stop - start))

/-- Rust `as usize` applied to an `i128`: truncation to 64 bits. -/
def as_usize (v : Int) : Nat := (v % (2 ^ 64 : Int)).toNat

/-- Rust `as i32` applied to an `i128`: wrap into [-2^31, 2^31). -/
def as_i32 (v : Int) : Int := Int.bmod v (2 ^ 32)

/-- `impl From<Tryte> for Instruction`: field extraction and the opcode
match, any unknown opcode mapping to `Nop`. -/
def Instruction.ofTryte (machine_code : Tryte) : Instruction :=
  let opcode := extract_value machine_code 0 5
  let rd := as_usize (extract_value machine_code 5 8)
  let rs1 := as_usize (extract_value machine_code 8 11)
  let rs2 := as_usize (extract_value machine_code 11 14)
  let imm := as_i32 (extract_value machine_code 14 27)
  if opcode = OP_ADD then .Add rd rs1 rs2
  else if opcode = OP_SUB then .Sub rd rs1 rs2
  else if opcode = OP_ADDI then .Addi rd rs1 imm
  else if opcode = OP_LW then .Lw rd rs1 imm
  else if opcode = OP_SW then .Sw rs1 rs2 imm
  else if opcode = OP_BEQ then .Beq rs1 rs2 imm
  else if opcode = OP_JAL then .Jal rd imm
  else if opcode = OP_LUI then .Lui rd imm
  else .Nop

/-- `Instruction::rs1`. -/
def Instruction.rs1 : Instruction → Nat
  | .Add _ r _ | .Sub _ r _ | .Addi _ r _ | .Lw _ r _ | .Sw r _ _ | .Beq r _ _ => r
  | _ => 0

/-- `Instruction::rs2`. -/
def Instruction.rs2 : Instruction → Nat
  | .Add _ _ r | .Sub _ _ r | .Sw _ r _ | .Beq _ r _ => r
  | _ => 0

/-- `Instruction::rd`. -/
def Instruction.rd : Instruction → Nat
  | .Add r _ _ | .Sub r _ _ | .Addi r _ _ | .Lw r _ _ | .Jal r _ | .Lui r _ => r
  | _ => 0

/-- One position of the ripple loops of `src/core/alu.rs`: push the sum
digit onto the result, update the running is-zero flag, keep the carry
returned by the recursive tail. -/
def ripple_cons (sc : Trit × Trit) (rest : List Trit × Trit × Bool) : List Trit × Trit × Bool :=
  (sc.1 :: rest.1, rest.2.1, decide (sc.1 = Trit.Zero) && rest.2.2)

/-- The ripple loop of `ArithmeticLogicUnit::add` (`src/core/alu.rs`,
lines 46-71): digitwise full adds, least significant position first.
Returns (result digits, carry after the last position, is_zero_result). -/
def add_loop : List Trit → List Trit → Trit → List Trit × Trit × Bool
  | a :: ta, b :: tb, carry =>
    ripple_cons (full_trit_adder a b carry)
      (add_loop ta tb (full_trit_adder a b carry).2)
  | _, _, carry => ([], carry, true)

/-- The balanced-ternary digit negation inlined in
`ArithmeticLogicUnit::sub`: flip Positive and Negative, keep Zero. -/
def trit_negate : Trit → Trit
  | .Positive => .Negative
  | .Zero => .Zero
  | .Negative => .Positive

/-- The ripple loop of `ArithmeticLogicUnit::sub`: identical to the add
loop except that every digit of the second operand is negated first. -/
def sub_loop : List Trit → List Trit → Trit → List Trit × Trit × Bool
  | a :: ta, b :: tb, carry =>
    ripple_cons (full_trit_adder a (trit_negate b) carry)
      (sub_loop ta tb (full_trit_adder a (trit_negate b) carry).2)
  | _, _, carry => ([], carry, true)

theorem add_loop_length : ∀ (a b : List Trit) (c : Trit), a.length = b.length →
    (add_loop a b c).1.length = a.length := by
  intro a
  induction a with
  | nil => intro b c _; cases b <;> rfl
  | cons x ta ih =>
    intro b c hlen
    cases b with
    | nil => simp at hlen
    | cons y tb =>
      simp only [List.length_cons, Nat.add_right_cancel_iff] at hlen
      simp only [add_loop, ripple_cons, List.length_cons]
      rw [ih tb (full_trit_adder x y c).2 hlen]

theorem sub_loop_length : ∀ (a b : List Trit) (c : Trit), a.length = b.length →
    (sub_loop a b c).1.length = a.length := by
  intro a
  induction a with
  | nil => intro b c _; cases b <;> rfl
  | cons x ta ih =>
    intro b c hlen
    cases b with
    | nil => simp at hlen
    | cons y tb =>
      simp only [List.length_cons, Nat.add_right_cancel_iff] at hlen
      simp only [sub_loop, ripple_cons, List.length_cons]
      rw [ih tb (full_trit_adder x (trit_negate y) c).2 hlen]

/-- `ArithmeticLogicUnit` from `src/core/alu.rs`.  The `circuit` field is
the stateless empty struct `ErisCircuit` and is omitted. -/
structure ArithmeticLogicUnit : Type where
  result : Tryte
  zero_flag : Trit
  input_a : Tryte
  input_b : Tryte
  alu_ctrl : AluOp

/-- `ArithmeticLogicUnit::default()`. -/
instance : Inhabited ArithmeticLogicUnit :=
  ⟨⟨default, Trit.Zero, default, default, AluOp.None⟩⟩

/-- `ArithmeticLogicUnit::alu_set`. -/
def ArithmeticLogicUnit.alu_set (alu : ArithmeticLogicUnit)
    (input_a input_b : Tryte) (alu_ctrl : AluOp) : ArithmeticLogicUnit :=
  { alu with input_a := input_a, input_b := input_b, alu_ctrl := alu_ctrl }

/-- `ArithmeticLogicUnit::alu_reset`: every field back to its default. -/
def ArithmeticLogicUnit.alu_reset (_alu : ArithmeticLogicUnit) : ArithmeticLogicUnit :=
  ⟨default, Trit.Zero, default, default, AluOp.None⟩

/-- `ArithmeticLogicUnit::add`. -/
def ArithmeticLogicUnit.add (alu : ArithmeticLogicUnit) : ArithmeticLogicUnit :=
  { alu with
    result := ⟨(add_loop alu.input_a.val alu.input_b.val Trit.Zero).1,
      (add_loop_length alu.input_a.val alu.input_b.val Trit.Zero
        (alu.input_a.property.trans alu.input_b.property.symm)).trans alu.input_a.property⟩,
    zero_flag := if (add_loop alu.input_a.val alu.input_b.val Trit.Zero).2.2
      then Trit.Positive else Trit.Zero }

/-- `ArithmeticLogicUnit::sub`. -/
def ArithmeticLogicUnit.sub (alu : ArithmeticLogicUnit) : ArithmeticLogicUnit :=
  { alu with
    result := ⟨(sub_loop alu.input_a.val alu.input_b.val Trit.Zero).1,
      (sub_loop_length alu.input_a.val alu.input_b.val Trit.Zero
        (alu.input_a.property.trans alu.input_b.property.symm)).trans alu.input_a.property⟩,
    zero_flag := if (sub_loop alu.input_a.val alu.input_b.val Trit.Zero).2.2
      then Trit.Positive else Trit.Zero }

/-- `ArithmeticLogicUnit::alu_exec`. -/
def ArithmeticLogicUnit.alu_exec (alu : ArithmeticLogicUnit) : ArithmeticLogicUnit :=
  match alu.alu_ctrl with
  | AluOp.Add => alu.add
  | AluOp.Sub => alu.sub
  | AluOp.PassB => { alu with result := alu.input_b }
  | AluOp.None => alu

/-- `Registers` from `src/core/registers.rs`.  The sparse
`HashMap<RegAddr, Tryte>` with `unwrap_or_default` reads is modelled as a
total function defaulting to the zero word. -/
structure Registers : Type where
  pc : Tryte
  gpr : RegAddr → Tryte

/-- `Registers::default()`: zero program counter, empty register map. -/
instance : Inhabited Registers := ⟨⟨default, fun _ => default⟩⟩

/-- `Registers::read_pc`. -/
def Registers.read_pc (regs : Registers) : Tryte := regs.pc

/-- `Registers::write_pc`. -/
def Registers.write_pc (regs : Registers) (new_pc : Tryte) : Registers :=
  { regs with pc := new_pc }

/-- `Registers::read_gpr`: index value 0 is hardwired to the zero word. -/
def Registers.read_gpr (regs : Registers) (index : RegAddr) : Tryte :=
  if index.to_i128 = 0 then default else regs.gpr index

/-- `Registers::write_gpr`: writes to index value 0 are dropped. -/
def Registers.write_gpr (regs : Registers) (index : RegAddr) (value : Tryte) : Registers :=
  if index.to_i128 = 0 then regs
  else { regs with gpr := fun a => if a = index then value else regs.gpr a }

/-- `AddressSpace` from `src/core/address_space.rs`: the sparse
`HashMap<Address, Tryte>` with `unwrap_or_default` reads, modelled as a
total function defaulting to the zero word. -/
structure AddressSpace : Type where
  mmio : Address → Tryte

/-- `AddressSpace::default()`: empty memory. -/
instance : Inhabited AddressSpace := ⟨⟨fun _ => default⟩⟩

/-- `AddressSpace::read`. -/
def AddressSpace.read (s : AddressSpace) (address : Address) : Tryte :=
  s.mmio address

/-- `AddressSpace::write`. -/
def AddressSpace.write (s : AddressSpace) (address : Address) (value : Tryte) : AddressSpace :=
  ⟨fun a => if a = address then value else s.mmio a⟩

/-- `CentralProcessingUnit` from `src/cpu.rs`. -/
structure CentralProcessingUnit : Type where
  registers : Registers
  address_space : AddressSpace
  arithmetic_logic_unit : ArithmeticLogicUnit
  current_instruction : Instruction
  control_signals : ControlSignals
  immediate : Int

/-- `CentralProcessingUnit::from` (named `init` here; `from` is reserved). -/
def CentralProcessingUnit.init (registers : Registers) (address_space : AddressSpace)
    (arithmetic_logic_unit : ArithmeticLogicUnit) : CentralProcessingUnit :=
  ⟨registers, address_space, arithmetic_logic_unit, Instruction.Nop, default, 0⟩

/-- `CentralProcessingUnit::usize_to_regaddr`: the usize index is cast to
i128 (exact, since usize < 2^64) and reduced into a 3-trit address. -/
def usize_to_regaddr (index : Nat) : RegAddr :=
  TritField.from_i128 3 (index : Int)

/-- `CentralProcessingUnit::fetch`. -/
def CentralProcessingUnit.fetch (cpu : CentralProcessingUnit) : Tryte :=
  cpu.address_space.read cpu.registers.read_pc

/-- `CentralProcessingUnit::decode`. -/
def CentralProcessingUnit.decode (cpu : CentralProcessingUnit) (raw_instr : Tryte) :
    CentralProcessingUnit :=
  let ci := Instruction.ofTryte raw_instr
  { cpu with
    current_instruction := ci,
    control_signals := ci.decode.1,
    immediate := ci.decode.2 }

/-- `CentralProcessingUnit::update_pc`. -/
def CentralProcessingUnit.update_pc (cpu : CentralProcessingUnit)
    (signals : ControlSignals) : CentralProcessingUnit :=
  let current_pc := cpu.registers.read_pc.to_i128
  let next_pc_val :=
    if signals.jump = true then current_pc + cpu.immediate
    else if signals.branch = true ∧ cpu.arithmetic_logic_unit.zero_flag = Trit.Positive then
      current_pc + cpu.immediate
    else current_pc + 1
  { cpu with registers := cpu.registers.write_pc (TritField.from_i128 27 next_pc_val) }

/-- `CentralProcessingUnit::execute` (`src/cpu.rs`, lines 53-105). -/
def CentralProcessingUnit.execute (cpu : CentralProcessingUnit) : CentralProcessingUnit :=
  let instr := cpu.current_instruction
  let signals := cpu.control_signals
  let rs1_addr := usize_to_regaddr instr.rs1
  let rs2_addr := usize_to_regaddr instr.rs2
  let rd_addr := usize_to_regaddr instr.rd
  let r_val_1 := cpu.registers.read_gpr rs1_addr
  let r_val_2 := cpu.registers.read_gpr rs2_addr
  let input_a := r_val_1
  let input_b := if signals.alu_src then TritField.from_i128 27 cpu.immediate else r_val_2
  let alu2 := ((cpu.arithmetic_logic_unit.alu_reset).alu_set input_a input_b signals.alu_op).alu_exec
  let alu_result := alu2.result
  let as1 := if signals.mem_write then cpu.address_space.write alu_result r_val_2
    else cpu.address_space
  let result_to_write := if signals.mem_read then as1.read alu_result else alu_result
  let regs1 :=
    if signals.reg_write then
      let final_data :=
        if signals.mem_to_reg then result_to_write
        else if signals.jump then TritField.from_i128 27 (cpu.registers.read_pc.to_i128 + 1)
        else alu_result
      cpu.registers.write_gpr rd_addr final_data
    else cpu.registers
  CentralProcessingUnit.update_pc
    { cpu with registers := regs1, address_space := as1, arithmetic_logic_unit := alu2 }
    signals

/-- `CentralProcessingUnit::cycle`: fetch, decode, execute. -/
def CentralProcessingUnit.cycle (cpu : CentralProcessingUnit) : CentralProcessingUnit :=
  let raw_instr := cpu.fetch
  (cpu.decode raw_instr).execute

/-- The `create_instruction` encoding helper from the tests in
`src/cpu.rs`: fields are packed at trit offsets 0, 5, 8, 11, 14. -/
def create_instruction (opcode rd rs1 rs2 imm : Int) : Tryte :=
  TritField.from_i128 27
    (opcode * 3 ^ 0 + rd * 3 ^ 5 + rs1 * 3 ^ 8 + rs2 * 3 ^ 11 + imm * 3 ^ 14)

theorem fta_sum (a b c : Trit) :
    (full_trit_adder a b c).1.to_i8 + 3 * (full_trit_adder a b c).2.to_i8
      = a.to_i8 + b.to_i8 + c.to_i8 := by
  cases a <;> cases b <;> cases c <;> decide

theorem fta_self_negate (t c0 : Trit) (h : c0 = Trit.Zero) :
    full_trit_adder t (trit_negate t) c0 = (Trit.Zero, Trit.Zero) := by
  subst h
  cases t <;> decide

theorem trit_negate_to_i8 (t : Trit) : (trit_negate t).to_i8 = -t.to_i8 := by
  cases t <;> decide

theorem add_loop_val : ∀ (a b : List Trit) (c : Trit), a.length = b.length →
    tritsVal (add_loop a b c).1 + 3 ^ a.length * (add_loop a b c).2.1.to_i8
      = tritsVal a + tritsVal b + c.to_i8 := by
  intro a
  induction a with
  | nil =>
    intro b c hlen
    cases b with
    | nil => simp [add_loop, tritsVal]
    | cons _ _ => simp at hlen
  | cons x ta ih =>
    intro b c hlen
    cases b with
    | nil => simp at hlen
    | cons y tb =>
      simp only [List.length_cons, Nat.add_right_cancel_iff] at hlen
      have hfta := fta_sum x y c
      rcases hf : full_trit_adder x y c with ⟨s, c2⟩
      rw [hf] at hfta
      simp only at hfta
      have hrec := ih tb c2 hlen
      rcases hr : add_loop ta tb c2 with ⟨rest, c3, z⟩
      rw [hr] at hrec
      simp only at hrec
      simp only [add_loop, ripple_cons, hf, hr, List.length_cons, tritsVal]
      have hpow : (3 : Int) ^ (ta.length + 1) = 3 * 3 ^ ta.length := by ring
      rw [hpow]
      nlinarith [hrec, hfta]

theorem sub_loop_val : ∀ (a b : List Trit) (c : Trit), a.length = b.length →
    tritsVal (sub_loop a b c).1 + 3 ^ a.length * (sub_loop a b c).2.1.to_i8
      = tritsVal a - tritsVal b + c.to_i8 := by
  intro a
  induction a with
  | nil =>
    intro b c hlen
    cases b with
    | nil => simp [sub_loop, tritsVal]
    | cons _ _ => simp at hlen
  | cons x ta ih =>
    intro b c hlen
    cases b with
    | nil => simp at hlen
    | cons y tb =>
      simp only [List.length_cons, Nat.add_right_cancel_iff] at hlen
      have hfta := fta_sum x (trit_negate y) c
      rw [trit_negate_to_i8] at hfta
      rcases hf : full_trit_adder x (trit_negate y) c with ⟨s, c2⟩
      rw [hf] at hfta
      simp only at hfta
      have hrec := ih tb c2 hlen
      rcases hr : sub_loop ta tb c2 with ⟨rest, c3, z⟩
      rw [hr] at hrec
      simp only at hrec
      simp only [sub_loop, ripple_cons, hf, hr, List.length_cons, tritsVal]
      have hpow : (3 : Int) ^ (ta.length + 1) = 3 * 3 ^ ta.length := by ring
      rw [hpow]
      nlinarith [hrec, hfta]

theorem add_loop_zero_iff : ∀ (a b : List Trit) (c : Trit),
    (add_loop a b c).2.2 = true ↔ ∀ t ∈ (add_loop a b c).1, t = Trit.Zero := by
  intro a
  induction a with
  | nil =>
    intro b c
    cases b <;> simp [add_loop]
  | cons x ta ih =>
    intro b c
    cases b with
    | nil => simp [add_loop]
    | cons y tb =>
      rcases hf : full_trit_adder x y c with ⟨s, c2⟩
      have hrec := ih tb c2
      rcases hr : add_loop ta tb c2 with ⟨rest, c3, z⟩
      rw [hr] at hrec
      simp only at hrec
      simp only [add_loop, ripple_cons, hf, hr, Bool.and_eq_true, decide_eq_true_eq, List.mem_cons]
      constructor
      · rintro ⟨hs, hz⟩ t (rfl | ht)
        · exact hs
        · exact (hrec.mp hz) t ht
      · intro h
        exact ⟨h s (Or.inl rfl), hrec.mpr (fun t ht => h t (Or.inr ht))⟩

theorem sub_loop_zero_iff : ∀ (a b : List Trit) (c : Trit),
    (sub_loop a b c).2.2 = true ↔ ∀ t ∈ (sub_loop a b c).1, t = Trit.Zero := by
  intro a
  induction a with
  | nil =>
    intro b c
    cases b <;> simp [sub_loop]
  | cons x ta ih =>
    intro b c
    cases b with
    | nil => simp [sub_loop]
    | cons y tb =>
      rcases hf : full_trit_adder x (trit_negate y) c with ⟨s, c2⟩
      have hrec := ih tb c2
      rcases hr : sub_loop ta tb c2 with ⟨rest, c3, z⟩
      rw [hr] at hrec
      simp only at hrec
      simp only [sub_loop, ripple_cons, hf, hr, Bool.and_eq_true, decide_eq_true_eq, List.mem_cons]
      constructor
      · rintro ⟨hs, hz⟩ t (rfl | ht)
        · exact hs
        · exact (hrec.mp hz) t ht
      · intro h
        exact ⟨h s (Or.inl rfl), hrec.mpr (fun t ht => h t (Or.inr ht))⟩

theorem sub_loop_self : ∀ l : List Trit,
    sub_loop l l Trit.Zero = (List.replicate l.length Trit.Zero, Trit.Zero, true) := by
  intro l
  induction l with
  | nil => rfl
  | cons t ts ih =>
    simp only [sub_loop, ripple_cons, fta_self_negate t Trit.Zero rfl, ih, List.length_cons,
      List.replicate_succ, Bool.and_true, decide_eq_true_eq]
    simp

theorem all_zero_tritsVal : ∀ l : List Trit, (∀ t ∈ l, t = Trit.Zero) → tritsVal l = 0 := by
  intro l
  induction l with
  | nil => intro _; rfl
  | cons x ts ih =>
    intro h
    have hx : x = Trit.Zero := h x (List.mem_cons_self x ts)
    have hts : tritsVal ts = 0 := ih (fun t ht => h t (List.mem_cons_of_mem x ht))
    simp [tritsVal, hx, hts, Trit.to_i8]

theorem trit_to_i8_bounds (t : Trit) : -1 ≤ t.to_i8 ∧ t.to_i8 ≤ 1 := by
  cases t <;> simp [Trit.to_i8]

theorem alu_exec_sub (alu : ArithmeticLogicUnit) (h : alu.alu_ctrl = AluOp.Sub) :
    alu.alu_exec = alu.sub := by
  unfold ArithmeticLogicUnit.alu_exec
  rw [h]

theorem alu_exec_add (alu : ArithmeticLogicUnit) (h : alu.alu_ctrl = AluOp.Add) :
    alu.alu_exec = alu.add := by
  unfold ArithmeticLogicUnit.alu_exec
  rw [h]

theorem alu_sub_self (alu : ArithmeticLogicUnit) (hctrl : alu.alu_ctrl = AluOp.Sub)
    (heq : alu.input_a = alu.input_b) :
    alu.alu_exec.result = (default : Tryte) ∧ alu.alu_exec.zero_flag = Trit.Positive := by
  rw [alu_exec_sub alu hctrl]
  have hself := sub_loop_self alu.input_a.val
  rw [alu.input_a.property] at hself
  constructor
  · apply Subtype.ext
    show (sub_loop alu.input_a.val alu.input_b.val Trit.Zero).1 = List.replicate 27 Trit.Zero
    rw [← heq, hself]
  · show (if (sub_loop alu.input_a.val alu.input_b.val Trit.Zero).2.2
      then Trit.Positive else Trit.Zero) = Trit.Positive
    rw [← heq, hself]
    simp

theorem alu_sub_ne (alu : ArithmeticLogicUnit) (hctrl : alu.alu_ctrl = AluOp.Sub)
    (hne : alu.input_a ≠ alu.input_b) :
    alu.alu_exec.zero_flag = Trit.Zero := by
  rw [alu_exec_sub alu hctrl]
  show (if (sub_loop alu.input_a.val alu.input_b.val Trit.Zero).2.2
    then Trit.Positive else Trit.Zero) = Trit.Zero
  have hlen : alu.input_a.val.length = alu.input_b.val.length :=
    alu.input_a.property.trans alu.input_b.property.symm
  cases hz : (sub_loop alu.input_a.val alu.input_b.val Trit.Zero).2.2 with
  | false => simp
  | true =>
    exfalso
    have hallz := (sub_loop_zero_iff alu.input_a.val alu.input_b.val Trit.Zero).mp hz
    have hv0 : tritsVal (sub_loop alu.input_a.val alu.input_b.val Trit.Zero).1 = 0 :=
      all_zero_tritsVal _ hallz
    have hval := sub_loop_val alu.input_a.val alu.input_b.val Trit.Zero hlen
    rw [hv0] at hval
    have hba := tritsVal_bound alu.input_a.val
    have hbb := tritsVal_bound alu.input_b.val
    rw [alu.input_a.property] at hba
    rw [alu.input_b.property] at hbb
    rw [alu.input_a.property] at hval
    have h1 := le_abs_self (tritsVal alu.input_a.val)
    have h2 := neg_abs_le (tritsVal alu.input_a.val)
    have h3 := le_abs_self (tritsVal alu.input_b.val)
    have h4 := neg_abs_le (tritsVal alu.input_b.val)
    have hzero : Trit.to_i8 Trit.Zero = 0 := rfl
    rw [hzero] at hval
    cases hct : (sub_loop alu.input_a.val alu.input_b.val Trit.Zero).2.1 with
    | Negative =>
      rw [hct] at hval
      have hm : Trit.to_i8 Trit.Negative = -1 := rfl
      rw [hm] at hval
      linarith
    | Positive =>
      rw [hct] at hval
      have hm : Trit.to_i8 Trit.Positive = 1 := rfl
      rw [hm] at hval
      linarith
    | Zero =>
      rw [hct, hzero] at hval
      have hveq : tritsVal alu.input_a.val = tritsVal alu.input_b.val := by linarith
      exact hne (Subtype.ext (tritsVal_inj _ _ hlen hveq))

theorem alu_addsub_flag (alu : ArithmeticLogicUnit)
    (h : alu.alu_ctrl = AluOp.Add ∨ alu.alu_ctrl = AluOp.Sub) :
    (alu.alu_exec.zero_flag = Trit.Positive ↔
      ∀ t ∈ alu.alu_exec.result.val, t = Trit.Zero) ∧
    (alu.alu_exec.zero_flag = Trit.Positive ∨ alu.alu_exec.zero_flag = Trit.Zero) := by
  rcases h with h | h
  · rw [alu_exec_add alu h]
    have hiff := add_loop_zero_iff alu.input_a.val alu.input_b.val Trit.Zero
    simp only [ArithmeticLogicUnit.add]
    cases hz : (add_loop alu.input_a.val alu.input_b.val Trit.Zero).2.2 with
    | true =>
      exact ⟨iff_of_true rfl (hiff.mp hz), Or.inl rfl⟩
    | false =>
      refine ⟨iff_of_false (by decide) (fun hall => ?_), Or.inr rfl⟩
      have hcontra := hiff.mpr hall
      rw [hz] at hcontra
      exact Bool.noConfusion hcontra
  · rw [alu_exec_sub alu h]
    have hiff := sub_loop_zero_iff alu.input_a.val alu.input_b.val Trit.Zero
    simp only [ArithmeticLogicUnit.sub]
    cases hz : (sub_loop alu.input_a.val alu.input_b.val Trit.Zero).2.2 with
    | true =>
      exact ⟨iff_of_true rfl (hiff.mp hz), Or.inl rfl⟩
    | false =>
      refine ⟨iff_of_false (by decide) (fun hall => ?_), Or.inr rfl⟩
      have hcontra := hiff.mpr hall
      rw [hz] at hcontra
      exact Bool.noConfusion hcontra

theorem cycle_nop (cpu : CentralProcessingUnit)
    (h : Instruction.ofTryte cpu.fetch = Instruction.Nop) :
    cpu.cycle.registers.gpr = cpu.registers.gpr ∧
    cpu.cycle.address_space = cpu.address_space ∧
    cpu.cycle.registers.pc = TritField.from_i128 27 (cpu.registers.pc.to_i128 + 1) := by
  have hd : cpu.decode cpu.fetch =
      { cpu with current_instruction := Instruction.Nop,
                 control_signals := ⟨AluOp.None, false, false, false, false, false, false, false⟩,
                 immediate := 0 } := by
    simp [CentralProcessingUnit.decode, h, Instruction.decode]
    rfl
  unfold CentralProcessingUnit.cycle
  simp only []
  rw [hd]
  simp [CentralProcessingUnit.execute, CentralProcessingUnit.update_pc,
    Registers.write_pc, Registers.read_pc, Instruction.rs1, Instruction.rs2, Instruction.rd,
    ArithmeticLogicUnit.alu_exec, ArithmeticLogicUnit.alu_set, ArithmeticLogicUnit.alu_reset]

theorem ofTryte_unknown_opcode (w : Tryte)
    (h : ¬ (1 ≤ extract_value w 0 5 ∧ extract_value w 0 5 ≤ 8)) :
    Instruction.ofTryte w = Instruction.Nop := by
  have h1 : extract_value w 0 5 ≠ OP_ADD := by unfold OP_ADD; omega
  have h2 : extract_value w 0 5 ≠ OP_SUB := by unfold OP_SUB; omega
  have h3 : extract_value w 0 5 ≠ OP_ADDI := by unfold OP_ADDI; omega
  have h4 : extract_value w 0 5 ≠ OP_LW := by unfold OP_LW; omega
  have h5 : extract_value w 0 5 ≠ OP_SW := by unfold OP_SW; omega
  have h6 : extract_value w 0 5 ≠ OP_BEQ := by unfold OP_BEQ; omega
  have h7 : extract_value w 0 5 ≠ OP_JAL := by unfold OP_JAL; omega
  have h8 : extract_value w 0 5 ≠ OP_LUI := by unfold OP_LUI; omega
  simp [Instruction.ofTryte, h1, h2, h3, h4, h5, h6, h7, h8]

theorem cycle_beq (cpu : CentralProcessingUnit) (r1 r2 : Nat) (imm : Int)
    (h : Instruction.ofTryte cpu.fetch = Instruction.Beq r1 r2 imm) :
    (cpu.registers.read_gpr (usize_to_regaddr r1) = cpu.registers.read_gpr (usize_to_regaddr r2) →
      cpu.cycle.arithmetic_logic_unit.result = (default : Tryte) ∧
      cpu.cycle.arithmetic_logic_unit.zero_flag = Trit.Positive ∧
      cpu.cycle.registers.pc = TritField.from_i128 27 (cpu.registers.pc.to_i128 + imm)) ∧
    (cpu.registers.read_gpr (usize_to_regaddr r1) ≠ cpu.registers.read_gpr (usize_to_regaddr r2) →
      cpu.cycle.registers.pc = TritField.from_i128 27 (cpu.registers.pc.to_i128 + 1)) := by
  have hd : cpu.decode cpu.fetch =
      { cpu with
        current_instruction := Instruction.Beq r1 r2 imm,
        control_signals := ⟨AluOp.Sub, false, false, false, false, false, true, false⟩,
        immediate := imm } := by
    simp [CentralProcessingUnit.decode, h, Instruction.decode]
    decide
  unfold CentralProcessingUnit.cycle
  simp only []
  rw [hd]
  constructor
  · intro heq
    have halu := alu_sub_self
      ((cpu.arithmetic_logic_unit.alu_reset).alu_set
        (cpu.registers.read_gpr (usize_to_regaddr r1))
        (cpu.registers.read_gpr (usize_to_regaddr r2)) AluOp.Sub) rfl heq
    refine ⟨?_, ?_, ?_⟩
    · simp [CentralProcessingUnit.execute, CentralProcessingUnit.update_pc,
        Instruction.rs1, Instruction.rs2, Instruction.rd]
      exact halu.1
    · simp [CentralProcessingUnit.execute, CentralProcessingUnit.update_pc,
        Instruction.rs1, Instruction.rs2, Instruction.rd]
      exact halu.2
    · simp [CentralProcessingUnit.execute, CentralProcessingUnit.update_pc,
        Instruction.rs1, Instruction.rs2, Instruction.rd,
        Registers.write_pc, Registers.read_pc, halu.2]
  · intro hne
    have halu := alu_sub_ne
      ((cpu.arithmetic_logic_unit.alu_reset).alu_set
        (cpu.registers.read_gpr (usize_to_regaddr r1))
        (cpu.registers.read_gpr (usize_to_regaddr r2)) AluOp.Sub) rfl hne
    simp [CentralProcessingUnit.execute, CentralProcessingUnit.update_pc,
      Instruction.rs1, Instruction.rs2, Instruction.rd,
      Registers.write_pc, Registers.read_pc, halu]

/-- The three-instruction arithmetic test program of `src/cpu.rs`
(`test_cpu_arithmetic`): `Addi r1,r0,5; Addi r2,r0,10; Add r3,r1,r2` at
addresses 0, 1, 2. -/
def testMem1 : AddressSpace :=
  (((default : AddressSpace).write (TritField.from_i128 27 0) (create_instruction 3 1 0 0 5)).write
    (TritField.from_i128 27 1) (create_instruction 3 2 0 0 10)).write
    (TritField.from_i128 27 2) (create_instruction 1 3 1 2 0)

/-- A processor over `testMem1` with empty registers and PC 0. -/
def testCpu1 : CentralProcessingUnit :=
  CentralProcessingUnit.init default testMem1 default

/-- The store/load test program of `src/cpu.rs`
(`test_cpu_memory_store_load`): `Addi r1,r0,42; Sw r0,r1,100; Lw r2,r0,100`
at addresses 0, 1, 2. -/
def testMem2 : AddressSpace :=
  (((default : AddressSpace).write (TritField.from_i128 27 0) (create_instruction 3 1 0 0 42)).write
    (TritField.from_i128 27 1) (create_instruction 5 0 0 1 100)).write
    (TritField.from_i128 27 2) (create_instruction 4 2 0 0 100)

/-- A processor over `testMem2` with empty registers and PC 0. -/
def testCpu2 : CentralProcessingUnit :=
  CentralProcessingUnit.init default testMem2 default

/-- A single-instruction `Beq r1,r2,7` program (opcode 6, rs1 = 1,
rs2 = 2, immediate 7) at address 0. -/
def testMemB : AddressSpace :=
  (default : AddressSpace).write (TritField.from_i128 27 0) (create_instruction 6 0 1 2 7)

/-- A processor over `testMemB` with empty registers and PC 0. -/
def testCpuB : CentralProcessingUnit :=
  CentralProcessingUnit.init default testMemB default

set_option maxRecDepth 40000 in
/-- Claim C1: starting from an empty register file, PC 0, and memory
holding the encodings of `Addi r1,r0,5`, `Addi r2,r0,10`, `Add r3,r1,r2`
at addresses 0, 1, 2, three invocations of `cycle()` leave register 3
holding the word of value 15 and the program counter at value 3. -/
theorem claim_C1 :
    (testCpu1.cycle.cycle.cycle.registers.read_gpr (TritField.from_i128 3 3)).to_i128 = 15 ∧
    (testCpu1.cycle.cycle.cycle.registers.read_pc).to_i128 = 3 := by
  decide

set_option maxRecDepth 40000 in
/-- Claim C2: with memory holding the encodings of `Addi r1,r0,42`,
`Sw r0,r1,100`, `Lw r2,r0,100` at addresses 0, 1, 2, after the second
`cycle()` the address-space word at address 100 is the word for 42, and
after the third `cycle()` register 2 holds the word for 42. -/
theorem claim_C2 :
    testCpu2.cycle.cycle.address_space.read (TritField.from_i128 27 100)
      = TritField.from_i128 27 42 ∧
    testCpu2.cycle.cycle.cycle.registers.read_gpr (TritField.from_i128 3 2)
      = TritField.from_i128 27 42 := by
  decide

/-- Claim C3: for every triple of trits, `full_trit_adder` follows the
7-case table on the raw sum a+b+c (3 gives (0,+1), 2 gives (-1,+1),
1 gives (1,0), 0 gives (0,0), -1 gives (-1,0), -2 gives (1,-1),
-3 gives (0,-1)); equivalently raw = sum + 3*carry with the sum digit in
{-1,0,1}. -/
theorem claim_C3 : ∀ a b c : Trit,
    ((full_trit_adder a b c).1.to_i8 + 3 * (full_trit_adder a b c).2.to_i8
      = a.to_i8 + b.to_i8 + c.to_i8) ∧
    ((full_trit_adder a b c).1.to_i8 = -1 ∨ (full_trit_adder a b c).1.to_i8 = 0 ∨
      (full_trit_adder a b c).1.to_i8 = 1) ∧
    (a.to_i8 + b.to_i8 + c.to_i8 = 3 → full_trit_adder a b c = (Trit.Zero, Trit.Positive)) ∧
    (a.to_i8 + b.to_i8 + c.to_i8 = 2 → full_trit_adder a b c = (Trit.Negative, Trit.Positive)) ∧
    (a.to_i8 + b.to_i8 + c.to_i8 = 1 → full_trit_adder a b c = (Trit.Positive, Trit.Zero)) ∧
    (a.to_i8 + b.to_i8 + c.to_i8 = 0 → full_trit_adder a b c = (Trit.Zero, Trit.Zero)) ∧
    (a.to_i8 + b.to_i8 + c.to_i8 = -1 → full_trit_adder a b c = (Trit.Negative, Trit.Zero)) ∧
    (a.to_i8 + b.to_i8 + c.to_i8 = -2 → full_trit_adder a b c = (Trit.Positive, Trit.Negative)) ∧
    (a.to_i8 + b.to_i8 + c.to_i8 = -3 → full_trit_adder a b c = (Trit.Zero, Trit.Negative)) := by
  decide

/-- Witness for C3 at a = b = c = Positive: the raw sum 3 yields sum digit
Zero and carry Positive. -/
theorem claim_C3_witness :
    full_trit_adder Trit.Positive Trit.Positive Trit.Positive = (Trit.Zero, Trit.Positive) :=
  (claim_C3 Trit.Positive Trit.Positive Trit.Positive).2.2.1 (by decide)

/-- Claim C4: round trip of the balanced-ternary conversions.  For every
width N and every integer x with |x| ≤ (3^N-1)/2, to_i128 (from_i128 x)
is x again; and for every N-trit field f, from_i128 (to_i128 f) is f. -/
theorem claim_C4 (N : Nat) :
    (∀ x : Int, x.natAbs ≤ (3 ^ N - 1) / 2 → (TritField.from_i128 N x).to_i128 = x) ∧
    (∀ f : TritField N, TritField.from_i128 N f.to_i128 = f) := by
  constructor
  · intro x hx
    apply to_i128_from_i128_exact
    have hpow : 1 ≤ 3 ^ N := Nat.one_le_pow N 3 (by omega)
    have hx2 : x.natAbs * 2 ≤ 3 ^ N - 1 := (Nat.le_div_iff_mul_le (by omega)).mp hx
    have hx3 : 2 * x.natAbs + 1 ≤ 3 ^ N := by omega
    have := Int.ofNat_le.mpr hx3
    push_cast at this
    exact this
  · intro f
    exact from_i128_to_i128 f

/-- Witness for C4 at width 2 and x = -4 (the most negative value of a
2-trit field). -/
theorem claim_C4_witness : (TritField.from_i128 2 (-4)).to_i128 = -4 :=
  (claim_C4 2).1 (-4) (by decide)

/-- Claim C5: `from_i128` never reaches the unreachable digit arm (the
loop always returns a digit list), and the value of the constructed field
is congruent to the input modulo 3^N: out-of-range inputs wrap instead of
erroring. -/
theorem claim_C5 (N : Nat) (value : Int) :
    (from_i128_loop N value).isSome = true ∧
    (TritField.from_i128 N value).to_i128 % (3 : Int) ^ N = value % (3 : Int) ^ N := by
  constructor
  · exact from_i128_loop_isSome N value
  · have hdvd := to_i128_from_i128_dvd N value
    exact (Int.ModEq.symm (Int.modEq_iff_dvd.mpr hdvd))

/-- Claim C6: register index 0 is hardwired to the zero word.  For any
register-file state, any index whose balanced value is 0 and any word,
writing leaves the file unchanged and reading returns the zero word. -/
theorem claim_C6 (regs : Registers) (index : RegAddr) (value : Tryte)
    (h : index.to_i128 = 0) :
    regs.write_gpr index value = regs ∧ regs.read_gpr index = (default : Tryte) := by
  constructor
  · unfold Registers.write_gpr
    rw [if_pos h]
  · unfold Registers.read_gpr
    rw [if_pos h]

/-- Witness for C6: writing 99 to register 0 of the empty file is a
no-op and register 0 reads as the zero word. -/
theorem claim_C6_witness :
    (default : Registers).write_gpr (TritField.from_i128 3 0) (TritField.from_i128 27 99)
        = (default : Registers) ∧
    (default : Registers).read_gpr (TritField.from_i128 3 0) = (default : Tryte) :=
  claim_C6 default (TritField.from_i128 3 0) (TritField.from_i128 27 99) (by decide)

/-- Claim C7: a fetched word whose opcode field (trits [0,5)) is not one
of 1..8 decodes to Nop and the cycle changes nothing observable except
advancing the program counter by 1: the register map and the whole
address space are untouched. -/
theorem claim_C7 (cpu : CentralProcessingUnit)
    (h : ¬ (1 ≤ extract_value cpu.fetch 0 5 ∧ extract_value cpu.fetch 0 5 ≤ 8)) :
    Instruction.ofTryte cpu.fetch = Instruction.Nop ∧
    cpu.cycle.registers.gpr = cpu.registers.gpr ∧
    cpu.cycle.address_space = cpu.address_space ∧
    cpu.cycle.registers.pc = TritField.from_i128 27 (cpu.registers.pc.to_i128 + 1) := by
  have hn := ofTryte_unknown_opcode cpu.fetch h
  exact ⟨hn, cycle_nop cpu hn⟩

set_option maxRecDepth 40000 in
/-- Witness for C7: the all-zero memory image fetches the zero word
(opcode 0), which runs as Nop and moves the PC from 0 to 1. -/
theorem claim_C7_witness :
    Instruction.ofTryte (CentralProcessingUnit.init default default default).fetch
        = Instruction.Nop ∧
    (CentralProcessingUnit.init default default default).cycle.registers.gpr
        = (CentralProcessingUnit.init default default default).registers.gpr ∧
    (CentralProcessingUnit.init default default default).cycle.address_space
        = (CentralProcessingUnit.init default default default).address_space ∧
    (CentralProcessingUnit.init default default default).cycle.registers.pc
        = TritField.from_i128 27
            ((CentralProcessingUnit.init default default default).registers.pc.to_i128 + 1) :=
  claim_C7 (CentralProcessingUnit.init default default default) (by decide)

/-- Claim C8: when the fetched word decodes to Beq, equal source
registers give the all-zero subtraction result, a Positive zero flag and
PC + immediate; unequal source registers give PC + 1. -/
theorem claim_C8 (cpu : CentralProcessingUnit) (r1 r2 : Nat) (imm : Int)
    (h : Instruction.ofTryte cpu.fetch = Instruction.Beq r1 r2 imm) :
    (cpu.registers.read_gpr (usize_to_regaddr r1) = cpu.registers.read_gpr (usize_to_regaddr r2) →
      cpu.cycle.arithmetic_logic_unit.result = (default : Tryte) ∧
      cpu.cycle.arithmetic_logic_unit.zero_flag = Trit.Positive ∧
      cpu.cycle.registers.pc = TritField.from_i128 27 (cpu.registers.pc.to_i128 + imm)) ∧
    (cpu.registers.read_gpr (usize_to_regaddr r1) ≠ cpu.registers.read_gpr (usize_to_regaddr r2) →
      cpu.cycle.registers.pc = TritField.from_i128 27 (cpu.registers.pc.to_i128 + 1)) :=
  cycle_beq cpu r1 r2 imm h

set_option maxRecDepth 40000 in
/-- Witness for C8: `Beq r1,r2,7` with both registers zero takes the
branch, leaving a zero result, Positive flag, and PC 0 + 7. -/
theorem claim_C8_witness :
    testCpuB.cycle.arithmetic_logic_unit.result = (default : Tryte) ∧
    testCpuB.cycle.arithmetic_logic_unit.zero_flag = Trit.Positive ∧
    testCpuB.cycle.registers.pc
      = TritField.from_i128 27 (testCpuB.registers.pc.to_i128 + 7) :=
  (claim_C8 testCpuB 1 2 7 (by decide)).1 (by decide)

/-- Counterexample to claim C9 as stated: after executing the PassB
operation on zero inputs every digit of the result is Zero, yet the zero
flag is not Positive (PassB and None never touch the flag). -/
theorem claim_C9_counterexample :
    (∀ t ∈ (((default : ArithmeticLogicUnit).alu_set (default : Tryte) (default : Tryte)
        AluOp.PassB).alu_exec).result.val, t = Trit.Zero) ∧
    (((default : ArithmeticLogicUnit).alu_set (default : Tryte) (default : Tryte)
        AluOp.PassB).alu_exec).zero_flag ≠ Trit.Positive := by
  decide

/-- Claim C9, amended: after the arithmetic unit executes an Add or Sub
operation, the zero flag equals Positive iff every digit of the result
word is Zero, and equals Zero otherwise.  (As stated the claim fails for
the PassB and None operations, which leave the flag untouched.) -/
theorem claim_C9 (alu : ArithmeticLogicUnit)
    (h : alu.alu_ctrl = AluOp.Add ∨ alu.alu_ctrl = AluOp.Sub) :
    (alu.alu_exec.zero_flag = Trit.Positive ↔
      ∀ t ∈ alu.alu_exec.result.val, t = Trit.Zero) ∧
    (alu.alu_exec.zero_flag = Trit.Positive ∨ alu.alu_exec.zero_flag = Trit.Zero) :=
  alu_addsub_flag alu h

/-- Witness for C9 at the Add of two zero words: the flag is Positive
and indeed every result digit is Zero. -/
theorem claim_C9_witness :
    ((((default : ArithmeticLogicUnit).alu_set (default : Tryte) (default : Tryte)
        AluOp.Add).alu_exec).zero_flag = Trit.Positive ↔
      ∀ t ∈ (((default : ArithmeticLogicUnit).alu_set (default : Tryte) (default : Tryte)
        AluOp.Add).alu_exec).result.val, t = Trit.Zero) ∧
    ((((default : ArithmeticLogicUnit).alu_set (default : Tryte) (default : Tryte)
        AluOp.Add).alu_exec).zero_flag = Trit.Positive ∨
      (((default : ArithmeticLogicUnit).alu_set (default : Tryte) (default : Tryte)
        AluOp.Add).alu_exec).zero_flag = Trit.Zero) :=
  claim_C9 ((default : ArithmeticLogicUnit).alu_set default default AluOp.Add) (Or.inl rfl)

/-- Claim C10: the decoder turns each register field into a usize by the
wrapping `as usize` cast, so a negative 3-trit field value v is read back
by `usize_to_regaddr` as the balanced reduction of 2^64 + v modulo 27,
never as v itself. -/
theorem claim_C10 (v : Int) (h1 : -13 ≤ v) (h2 : v ≤ -1) :
    (usize_to_regaddr (as_usize v)).to_i128 = Int.bmod (2 ^ 64 + v) 27 ∧
    (usize_to_regaddr (as_usize v)).to_i128 ≠ v := by
  interval_cases v <;> exact ⟨by decide, by decide⟩

/-- Witness for C10 at v = -1 (the example from the claim): the register
address actually used has balanced value -3, not -1. -/
theorem claim_C10_witness :
    (usize_to_regaddr (as_usize (-1))).to_i128 = Int.bmod (2 ^ 64 + -1) 27 ∧
    (usize_to_regaddr (as_usize (-1))).to_i128 ≠ -1 ∧
    (usize_to_regaddr (as_usize (-1))).to_i128 = -3 :=
  ⟨(claim_C10 (-1) (by decide) (by decide)).1,
   (claim_C10 (-1) (by decide) (by decide)).2,
   by decide⟩
